import Mathlib

/-!
Verification development for the `clio` command-line application framework
(`application.go`, `bus.go`): the multi-phase setup/run orchestration and the
async execution bridge into an event-driven loop.

The Go code is shallowly embedded as pure Lean functions.  Effects (log
records, post-load hooks, initializer runs, channel operations, profiling
sessions) are made observable as a `Trace`: a list of `Event`s emitted in the
order the Go code performs them.  Mutation of the `State` struct becomes
explicit state passing.  External collaborators (the fangs config loader
bridge, yaml marshalling, the terminal color / indent renderers, the event
loop, resource construction inside `State.setup`) are modelled from the spec's
description of their contracts, as marked in the doc comments.
-/

set_option autoImplicit false

namespace Clio

/-- Errors are carried by their message string, matching Go's `error`
interface as consumed here (`fmt.Errorf("...: %v", err)` concatenates the
message). -/
abbrev Err := String

/-- Profiling modes supported by the `run` switch (`application.go:117-120`). -/
inductive ProfileMode where
  | cpu
  | mem
deriving DecidableEq, Repr

/-- The value of the development-configuration profile flag.  Modelled from
the spec: the `Profile` type and the `ProfileCPU` / `ProfileMem` constants are
declared outside the given sources; the `run` switch has exactly these two
cases and silently ignores every other value, so any further value is
represented by `other`. -/
inductive Profile where
  | cpu
  | mem
  | other (s : String)
deriving DecidableEq, Repr

/-- Modelled from the spec: the development configuration carries the
profiling selector read by `run` (`a.state.Config.Dev.Profile`). -/
structure DevelopmentConfig where
  profile : Profile
deriving DecidableEq, Repr

/-- Modelled from the spec: the default logging configuration copied into
`State` by `setupRootCommand`; its fields are opaque to every claim, so it is
represented by an abstract tag. -/
structure LoggingConfig where
  tag : String
deriving DecidableEq, Repr

/-- How a configuration object renders in `logConfiguration`
(`application.go:153-164`): it either implements `fmt.Stringer`, or is
marshalled to yaml (which may fail, in which case the error is printed). The
yaml marshaller is an external collaborator, so its output is carried as
data. -/
inductive Rendering where
  | stringer (s : String)
  | yamlOk (s : String)
  | yamlErr (e : String)
deriving DecidableEq, Repr

/-- A target handed to the config loader bridge by `loadConfigs`
(`application.go:79-84`): the core application config `&a.state.Config`, the
application itself (whose `PostLoad` is the code of `application.go:92-97`),
or a caller-supplied configuration object.  A caller object's post-load hook
is external, so its behaviour is carried as data: `none` when the object does
not expose a hook, `some r` when invoking it returns `r`; `render` is how the
object renders in `logConfiguration`. -/
inductive Target where
  | coreConfig
  | app
  | caller (id : Nat) (hook : Option (Option Err)) (render : Rendering)
deriving DecidableEq, Repr

/-- Observable events emitted by the embedded code, in execution order. -/
inductive Event where
  /-- The bridge populated the fields of the target at list position `i`. -/
  | populate (i : Nat)
  /-- The bridge invoked the post-load hook of the target at position `i`. -/
  | postLoadHook (i : Nat)
  /-- The initializer registered at position `i` was called. -/
  | initRun (i : Nat)
  /-- Go `log.Infof` record. -/
  | logInfo (msg : String)
  /-- Go `log.Debugf` / `log.Debug` record. -/
  | logDebug (msg : String)
  /-- Go `profile.Start(mode)` was called. -/
  | profileStart (mode : ProfileMode)
  /-- The deferred `Stop()` of the profiling session ran. -/
  | profileStop (mode : ProfileMode)
  /-- The post-construct hook registered at position `i` was called. -/
  | postConstructRun (i : Nat)
  /-- Go `a.state.Config.Log = cp(...)` executed (`application.go:207`). -/
  | setStateLog
  /-- Go `a.state.Config.Dev = cp(...)` executed (`application.go:208`). -/
  | setStateDev
  /-- Go `errs <- err` executed in the `async` goroutine. -/
  | chanSend (e : Err)
  /-- Go `close(errs)` executed in the `async` goroutine. -/
  | chanClose
deriving DecidableEq, Repr

/-- A trace of observable events. -/
abbrev Trace := List Event

/-- Go `errs <- err`? -/
def Event.isChanSend : Event → Bool
  | .chanSend _ => true
  | _ => false

/-- Go `close(errs)`? -/
def Event.isChanClose : Event → Bool
  | .chanClose => true
  | _ => false

/-!
Async Execution Bridge (`async`, `application.go:269-278`)

```go
func async(cmd *cobra.Command, args []string, f func(...) error) <-chan error {
    errs := make(chan error)
    go func() {
        defer close(errs)
        if err := f(cmd, args); err != nil {
            errs <- err
        }
    }()
    return errs
}
```

The goroutine body is sequential: it runs `f`, sends the error if non-nil,
and the deferred `close` runs last.  The wrapped body is external; its
behaviour is a trace `bt` of its own events together with its returned error
`br`.  `async bt br` is the full trace of channel-relevant events the
goroutine produces, in program order.
-/

/-- The event trace of the goroutine spawned by `async`, given the wrapped
body's own trace `bt` and returned error `br`. -/
def async (bt : Trace) (br : Option Err) : Trace :=
  bt ++ (match br with
         | some e => [Event.chanSend e]
         | none => []) ++ [Event.chanClose]

/-!
Data model: `Config`, `State`, `SetupConfig`

`State` in Go additionally holds the logger, event bus, redaction store,
subscription handle and UI sinks.  Those resources are constructed by
`State.setup` (code outside the given sources, represented abstractly in
`Env.stateSetup`) and no claim observes their values, so only the `Config`
field is carried here; log records are observed through the trace instead of
through the logger object.
-/

/-- The core application configuration (`a.state.Config`): logging and
development settings plus the running record of configs registered from
commands (`FromCommands`, appended to by `AddFlags` and `setupCommand`). -/
structure Config where
  log : Option LoggingConfig
  dev : Option DevelopmentConfig
  fromCommands : List (Option Target)
deriving DecidableEq, Repr

/-- The resource bundle threaded through setup (see section comment). -/
structure State where
  config : Config
deriving DecidableEq, Repr

/-- Go `type Initializer func(*State) error`: may mutate the state and return an
error. -/
abbrev Initializer := State → Option Err × State

/-- Go `type postConstruct func(*application)`: a hook run by
`setupRootCommand` that may mutate the application's state. -/
abbrev PostConstruct := State → State

/-- The `SetupConfig` descriptor: application identity (`ID.Name`,
`ID.Version`), default logging/development configuration, the ordered
initializers and post-construct hooks.  The fangs loader configuration is
external and is absorbed into `Env`. -/
structure SetupConfig where
  name : String
  version : String
  defaultLoggingConfig : Option LoggingConfig
  defaultDevelopmentConfig : Option DevelopmentConfig
  initializers : List Initializer
  postConstructs : List PostConstruct

/-- The external collaborators, modelled from the spec:
* `stateSetup` — resource construction performed by `State.setup` (logger,
  bus, redaction store, UI sinks); code outside the given sources; it may
  mutate the state and fail.
* `loadFailure` — the bridge's own populate/validation outcome (malformed
  source, validation failure) for this invocation.
* `coreRender` / `appRender` — how `&a.state.Config` and the application
  object render in `logConfiguration` (yaml marshalling is external).
* `eventloop` — the event loop driver (code outside the given sources):
  given the async outcome channel's event trace it blocks, dispatches bus
  events, and returns its own trace and the final outcome. -/
structure Env where
  stateSetup : State → Option Err × State
  loadFailure : Option Err
  coreRender : Rendering
  appRender : Rendering
  eventloop : Trace → Trace × Option Err

/-!
Initializer chain (`runInitializers`, `application.go:99-106`)

```go
func (a *application) runInitializers() error {
    for _, init := range a.setupConfig.Initializers {
        if err := init(&a.state); err != nil {
            return err
        }
    }
    return nil
}
```
-/

/-- The loop of `runInitializers`, with `idx` the registration position of
the head of `inits` (used only to tag the `initRun` trace events). -/
def runInitializersAux (inits : List Initializer) (idx : Nat) (st : State) :
    Trace × Option Err × State :=
  match inits with
  | [] => ([], none, st)
  | i :: rest =>
    match i st with
    | (some e, st') => ([Event.initRun idx], some e, st')
    | (none, st') =>
      let (t, r, st'') := runInitializersAux rest (idx + 1) st'
      (Event.initRun idx :: t, r, st'')

/-- Go `(*application).runInitializers`. -/
def runInitializers (cfg : SetupConfig) (st : State) : Trace × Option Err × State :=
  runInitializersAux cfg.initializers 0 st

/-- Go `(*application).PostLoad` (`application.go:92-97`): resource
construction via `State.setup`, then the initializer chain. -/
def PostLoad (env : Env) (cfg : SetupConfig) (st : State) : Trace × Option Err × State :=
  match env.stateSetup st with
  | (some e, st') => ([], some e, st')
  | (none, st') => runInitializers cfg st'

/-!
Config Loader Bridge (`fangs.Load`), modelled from the spec

External collaborator.  Spec: "given an ordered list of configuration
targets, populates them from sources (files, flags, environment) and invokes
a post-load hook on any target implementing it", "populates every target's
fields from sources and then invokes a post-load hook, in list order, on any
target that exposes one"; hook failures propagate (fail-fast, first error is
returned), and a populate/validation failure (`Env.loadFailure`) aborts the
load before any hook runs.  The core config exposes no post-load hook; the
application's hook is `PostLoad` above; a caller target's hook behaviour is
the data carried by `Target.caller`.
-/

/-- The bridge's hook pass: invokes each hook in list order, fail-fast;
`idx` is the position of the head of `targets` in the full list. -/
def runPostLoadHooks (env : Env) (cfg : SetupConfig) (targets : List Target)
    (idx : Nat) (st : State) : Trace × Option Err × State :=
  match targets with
  | [] => ([], none, st)
  | Target.coreConfig :: rest => runPostLoadHooks env cfg rest (idx + 1) st
  | Target.app :: rest =>
    match PostLoad env cfg st with
    | (tr, some e, st') => (Event.postLoadHook idx :: tr, some e, st')
    | (tr, none, st') =>
      let (tr2, r2, st'') := runPostLoadHooks env cfg rest (idx + 1) st'
      (Event.postLoadHook idx :: (tr ++ tr2), r2, st'')
  | Target.caller _ none _ :: rest => runPostLoadHooks env cfg rest (idx + 1) st
  | Target.caller _ (some (some e)) _ :: _ => ([Event.postLoadHook idx], some e, st)
  | Target.caller _ (some none) _ :: rest =>
    let (tr2, r2, st') := runPostLoadHooks env cfg rest (idx + 1) st
    (Event.postLoadHook idx :: tr2, r2, st')

/-- Modelled from the spec: `fangs.Load(loaderConfig, cmd, targets...)`. -/
def fangsLoad (env : Env) (cfg : SetupConfig) (targets : List Target) (st : State) :
    Trace × Option Err × State :=
  match env.loadFailure with
  | some e => ([], some e, st)
  | none =>
    let popTrace := (List.range targets.length).map Event.populate
    let (ht, r, st') := runPostLoadHooks env cfg targets 0 st
    (popTrace ++ ht, r, st')

/-!
`loadConfigs` (`application.go:78-90`) and `nonNil` (`application.go:280-288`)
-/

/-- Go `nonNil` (`application.go:280-288`): Go's loop appending each non-nil
entry to `ret`. -/
def nonNil {α : Type} (a : List (Option α)) : List α :=
  a.foldl (fun ret v =>
    match v with
    | some x => ret ++ [x]
    | none => ret) []

/-- The load-list construction of `loadConfigs` (`application.go:79-84`):
`[&a.state.Config]`, then (when `withResources`) the application itself,
then the caller configs, then `nonNil` filtering. -/
def buildLoadList (withResources : Bool) (cfgs : List (Option Target)) : List Target :=
  let allConfigs : List (Option Target) := [some Target.coreConfig]
  let allConfigs := allConfigs ++ (if withResources then [some Target.app] else [])
  let allConfigs := allConfigs ++ cfgs
  nonNil allConfigs

/-- Go `(*application).loadConfigs` (`application.go:78-90`): builds the load
list, delegates to the bridge, and wraps any bridge failure with the fixed
`"invalid application config"` prefix (`fmt.Errorf("invalid application
config: %v", err)`). -/
def loadConfigs (env : Env) (cfg : SetupConfig) (withResources : Bool)
    (cfgs : List (Option Target)) (st : State) :
    Trace × Except Err (List Target) × State :=
  let allConfigs := buildLoadList withResources cfgs
  match fangsLoad env cfg allConfigs st with
  | (t, some e, st') => (t, Except.error ("invalid application config: " ++ e), st')
  | (t, none, st') => (t, Except.ok allConfigs, st')

/-!
Version and configuration logging (`application.go:133-181`)
-/

/-- Go `logVersion` (`application.go:133-143`): `log.Infof(cfg.ID.Name)` when
the version is empty, else `log.Infof("%s version: %+v", Name, Version)`. -/
def logVersion (cfg : SetupConfig) : Trace :=
  if cfg.version = "" then
    [Event.logInfo cfg.name]
  else
    [Event.logInfo (cfg.name ++ " version: " ++ cfg.version)]

/-- Modelled from the spec: `color.Magenta.Sprint` (gookit/color), rendering
with the ANSI magenta escape. -/
def magenta (s : String) : String := "\x1b[35m" ++ s ++ "\x1b[0m"

/-- Modelled from the spec: `indent.String("  ", s)` (pborman/indent),
prefixing every line with two spaces (computed over the character list so
that concrete instances evaluate). -/
def indentTwo (s : String) : String :=
  "  " ++ ⟨s.data.foldr (fun c acc =>
    if c = '\n' then '\n' :: ' ' :: ' ' :: acc else c :: acc) []⟩

/-- Modelled from the spec: Go's `strings.TrimSpace`, dropping leading and
trailing whitespace (computed over the character list so that concrete
instances evaluate). -/
def trimSpace (s : String) : String :=
  ⟨((s.data.dropWhile Char.isWhitespace).reverse.dropWhile Char.isWhitespace).reverse⟩

/-- The per-object rendering chosen by `logConfiguration`
(`application.go:153-164`): the object's own `String()` when it implements
`fmt.Stringer`, otherwise its yaml marshalling (or the marshal error's
message). -/
def renderOne : Rendering → String
  | Rendering.stringer s => s
  | Rendering.yamlOk s => s
  | Rendering.yamlErr e => e

/-- Go `logConfiguration` (`application.go:145-181`): skips nil entries, trims
each rendering, appends `str + "\n"` to the builder when the trimmed
rendering is neither empty nor `"\x7b\x7d"`, then emits either the indented,
magenta-colored consolidated dump or the `"config: (none)"` placeholder. -/
def logConfiguration (cfgs : List (Option Rendering)) : Trace :=
  let content := cfgs.foldl (fun sb c =>
    match c with
    | none => sb
    | some r =>
      let str := trimSpace (renderOne r)
      if str ≠ "" ∧ str ≠ "\x7b\x7d" then sb ++ str ++ "\n" else sb) ""
  if content ≠ "" then
    [Event.logDebug ("config:\n" ++ magenta (indentTwo (trimSpace content)))]
  else
    [Event.logDebug "config: (none)"]

/-- How a load-list target renders when handed to `logConfiguration`:
caller targets carry their rendering; the two core targets' renderings are
the environment's. -/
def renderOf (env : Env) : Target → Rendering
  | Target.coreConfig => env.coreRender
  | Target.app => env.appRender
  | Target.caller _ _ r => r

/-!
`Setup` (`application.go:57-76`)

`Setup(cfgs...)` returns a closure `func(cmd, args) error`; the closure's
body loads all configs (with resources), then logs the version and the
consolidated configuration.  `Setup env cfg cfgs st` is the effect of one
invocation of that closure (the `cmd`/`args` parameters are consumed only by
the external bridge, absorbed into `Env`).
-/

/-- The body of the closure returned by `(*application).Setup`. -/
def Setup (env : Env) (cfg : SetupConfig) (cfgs : List (Option Target)) (st : State) :
    Trace × Option Err × State :=
  match loadConfigs env cfg true cfgs st with
  | (t, Except.error e, st') => (t, some e, st')
  | (t, Except.ok allConfigs, st') =>
    let tv := logVersion cfg
    let tc := logConfiguration (allConfigs.map (fun c => some (renderOf env c)))
    (t ++ tv ++ tc, none, st')

/-!
Event-loop driver (`run`, `application.go:114-131`)

```go
func (a *application) run(ctx context.Context, errs <-chan error) error {
    if a.state.Config.Dev != nil {
        switch a.state.Config.Dev.Profile {
        case ProfileCPU:
            defer profile.Start(profile.CPUProfile).Stop()
        case ProfileMem:
            defer profile.Start(profile.MemProfile).Stop()
        }
    }
    return eventloop(ctx, ..., errs, a.state.UIs...)
}
```

`profile.Start` runs when the `defer` statement executes (before the event
loop); the deferred `Stop()` runs after `eventloop` returns, on every exit
path, error returns included, and does not alter the returned value.
`eventloop` is code outside the given sources, represented by
`Env.eventloop` applied to the outcome channel's trace.
-/

/-- Go `(*application).run`: the trace and outcome of one event-loop run, given
the async outcome channel's trace `errs`. -/
def run (env : Env) (st : State) (errs : Trace) : Trace × Option Err :=
  let (lt, lr) := env.eventloop errs
  match st.config.dev with
  | none => (lt, lr)
  | some d =>
    match d.profile with
    | Profile.cpu =>
      (Event.profileStart ProfileMode.cpu :: lt ++ [Event.profileStop ProfileMode.cpu], lr)
    | Profile.mem =>
      (Event.profileStart ProfileMode.mem :: lt ++ [Event.profileStop ProfileMode.mem], lr)
    | Profile.other _ => (lt, lr)

/-!
Command binding (`application.go:183-251`)

A cobra hook `func(cmd *cobra.Command, args []string) error` reaches the
application's state through the captured `*application` pointer, at
invocation time; so a hook is embedded as a function of the invocation-time
`State` and the argument list, returning its trace, its error, and the state
it leaves behind.  `cobra.Command` is embedded with the fields this code
touches: `Use`, `Version`, the version template, `PreRunE`, `RunE`,
`SilenceUsage`, `SilenceErrors`.
-/

/-- A cobra hook (see section comment). -/
abbrev Hook := State → List String → Trace × Option Err × State

/-- The fields of `cobra.Command` touched by this code. -/
structure Command where
  use : String
  version : String
  versionTemplate : String
  preRunE : Option Hook
  runE : Option Hook
  silenceUsage : Bool
  silenceErrors : Bool

/-- The replacement pre-run hook installed by `setupCommand`
(`application.go:227-237`): run `a.Setup(cfgs...)` first; on failure return
its error; otherwise run the original hook (when non-nil) with the original
arguments. -/
def boundPreRun (env : Env) (cfg : SetupConfig) (cfgs : List (Option Target))
    (original : Option Hook) : Hook :=
  fun st args =>
    match Setup env cfg cfgs st with
    | (t, some e, st') => (t, some e, st')
    | (t, none, st') =>
      match original with
      | some f =>
        let (t2, r2, st'') := f st' args
        (t ++ t2, r2, st'')
      | none => (t, none, st')

/-- Go `(*application).Run` (`application.go:108-112`): wraps a command body so
it runs through the async bridge while `a.run` drives the event loop on the
outcome channel.  The concurrent interleaving is sequentialized: the body's
channel trace is handed to the loop; the profiling decision in `run` reads
the state as of invocation, as the Go code does. -/
def Run (env : Env) (f : Hook) : Hook :=
  fun st args =>
    let (bt, br, st') := f st args
    let (lt, lr) := run env st (async bt br)
    (lt, lr, st')

/-- Go `(*application).setupCommand` (`application.go:226-251`), with
`fn = &cmd.PreRunE` as at both call sites: replaces `PreRunE` by the bound
hook, wraps a non-nil `RunE` with `a.Run`, suppresses usage/error
auto-printing, and appends the caller configs to
`a.state.Config.FromCommands`.  The trailing `fangs.AddFlags` call is
external flag registration with no observable effect here. -/
def setupCommand (env : Env) (cfg : SetupConfig) (cmd : Command)
    (cfgs : List (Option Target)) (st : State) : Command × State :=
  let original := cmd.preRunE
  let cmd := { cmd with preRunE := some (boundPreRun env cfg cfgs original) }
  let cmd := match cmd.runE with
    | some f => { cmd with runE := some (Run env f) }
    | none => cmd
  let cmd := { cmd with silenceUsage := true, silenceErrors := true }
  let st := { st with
    config := { st.config with fromCommands := st.config.fromCommands ++ cfgs } }
  (cmd, st)

/-- Go `cp` (`application.go:217-224`): nil stays nil; otherwise the pointee is
copied — in a pure embedding the copy is the value itself. -/
def cp {T : Type} (value : Option T) : Option T :=
  match value with
  | none => none
  | some t => some t

/-- The loop over `a.setupConfig.postConstructs`
(`application.go:210-212`); `idx` tags the `postConstructRun` events with
registration positions. -/
def runPostConstructsAux (pcs : List PostConstruct) (idx : Nat) (st : State) :
    Trace × State :=
  match pcs with
  | [] => ([], st)
  | pc :: rest =>
    let st' := pc st
    let (t, st'') := runPostConstructsAux rest (idx + 1) st'
    (Event.postConstructRun idx :: t, st'')

/-- Go `(*application).setupRootCommand` (`application.go:197-215`): force
`Use` to the application name unless it already has that prefix, set the
version and the one-line version template, copy the default
logging/development configs into the state, run the post-construct hooks in
registration order, then perform the normal command binding.  The trace
records the two state copies and the hook runs, in execution order. -/
def setupRootCommand (env : Env) (cfg : SetupConfig) (cmd : Command)
    (cfgs : List (Option Target)) (st : State) : Trace × Command × State :=
  let cmd := if cfg.name.isPrefixOf cmd.use then cmd else { cmd with use := cfg.name }
  let cmd := { cmd with version := cfg.version }
  let cmd := { cmd with versionTemplate := cfg.name ++ " \x7b\x7b.Version\x7d\x7d\n" }
  let st := { st with config := { st.config with log := cp cfg.defaultLoggingConfig } }
  let st := { st with config := { st.config with dev := cp cfg.defaultDevelopmentConfig } }
  let (t, st) := runPostConstructsAux cfg.postConstructs 0 st
  let (cmd, st) := setupCommand env cfg cmd cfgs st
  ([Event.setStateLog, Event.setStateDev] ++ t, cmd, st)

/-!
Trace predicates used to state the claims.
-/

/-- Predicate for log records (`log.Infof` / `log.Debugf` / `log.Debug`). -/
def Event.isLogRecord : Event → Bool
  | .logInfo _ => true
  | .logDebug _ => true
  | _ => false

/-- Predicate for post-load hook invocations by the bridge. -/
def Event.isPostLoadHook : Event → Bool
  | .postLoadHook _ => true
  | _ => false

/-- Predicate for `profile.Start` calls. -/
def Event.isProfileStart : Event → Bool
  | .profileStart _ => true
  | _ => false

/-- Predicate for deferred profiling `Stop()` calls. -/
def Event.isProfileStop : Event → Bool
  | .profileStop _ => true
  | _ => false

/-- Newline-terminated concatenation, the declarative counterpart of the
`sb.WriteString(str + "\n")` accumulation in `logConfiguration`. -/
def joinLines : List String → String
  | [] => ""
  | s :: rest => s ++ "\n" ++ joinLines rest

/-- The suppression test of `logConfiguration`: a trimmed rendering is kept
exactly when it is neither empty nor `"\x7b\x7d"`. -/
def keepRendering (s : String) : Bool := decide (s ≠ "" ∧ s ≠ "\x7b\x7d")

/-- The renderings that contribute to the consolidated configuration dump:
nil entries skipped, each remaining object rendered and trimmed, and the
suppression test applied. -/
def contributing (cfgs : List (Option Rendering)) : List String :=
  ((cfgs.filterMap id).map (fun r => trimSpace (renderOne r))).filter keepRendering

/-!
Concrete fixtures: a resource construction that succeeds without touching
the state, a silent event loop, environments with and without a bridge
failure, and small setup configurations.  These are the inputs at which the
claims are evaluated concretely.
-/

/-- Resource construction that succeeds and leaves the state unchanged. -/
def idStateSetup : State → Option Err × State := fun st => (none, st)

/-- An event loop that sees no bus events and returns success. -/
def quietLoop : Trace → Trace × Option Err := fun _ => ([], none)

/-- An environment whose bridge load succeeds. -/
def envOk : Env :=
  ⟨idStateSetup, none, Rendering.yamlOk "\x7b\x7d", Rendering.yamlOk "\x7b\x7d", quietLoop⟩

/-- An environment whose bridge load fails with `"boom"`. -/
def envFail : Env := { envOk with loadFailure := some "boom" }

/-- A small identity: name `tool`, version `1.2.3`, no defaults, no hooks. -/
def cfg0 : SetupConfig := ⟨"tool", "1.2.3", none, none, [], []⟩

/-- Like `cfg0` but with an empty version and one initializer that fails
with `"init boom"` without touching the state. -/
def cfgInit : SetupConfig :=
  { cfg0 with version := "", initializers := [fun st => (some "init boom", st)] }

/-- The empty starting state. -/
def st0 : State := ⟨⟨none, none, []⟩⟩

/-- A state whose loaded development configuration selects CPU profiling. -/
def stCpu : State := ⟨⟨none, some ⟨Profile.cpu⟩, []⟩⟩

/-- A bare command with no hooks bound. -/
def cmd1 : Command := ⟨"serve", "", "", none, none, false, false⟩

/-- A user pre-run hook that logs `"orig"` and succeeds. -/
def f0 : Hook := fun st _ => ([Event.logInfo "orig"], none, st)

/-- An environment whose event loop logs once and reports a body failure. -/
def envLoopErr : Env :=
  { envOk with eventloop := fun _ => ([Event.logInfo "loop"], some "body failed") }

/-!
Helper lemmas, shared across claims.
-/

/-- C4: for every wrapped command body (whose own trace `bt` holds no
operation on the local `errs` channel, which it cannot reach), the goroutine
of `async` closes the channel exactly once; the close is the last event and
comes after every body event; at most one value is sent, exactly when the
body returned a non-nil error, and the send happens before the close. -/
theorem clio_C4_async_channel_discipline (bt : Trace) (br : Option Err)
    (h : ∀ e ∈ bt, e.isChanSend = false ∧ e.isChanClose = false) :
    (async bt br).filter Event.isChanClose = [Event.chanClose]
    ∧ (async bt br).getLast? = some Event.chanClose
    ∧ ((async bt br).filter Event.isChanSend).length = (if br.isSome then 1 else 0)
    ∧ (async bt br).take bt.length = bt
    ∧ (async bt br).drop bt.length =
        (match br with
         | some e => [Event.chanSend e]
         | none => []) ++ [Event.chanClose] := by
  have hclose : bt.filter Event.isChanClose = [] := by
    rw [List.filter_eq_nil_iff]
    intro a ha
    simp [(h a ha).2]
  have hsend : bt.filter Event.isChanSend = [] := by
    rw [List.filter_eq_nil_iff]
    intro a ha
    simp [(h a ha).1]
  cases br <;>
    simp [async, List.filter_append, hclose, hsend, Event.isChanClose, Event.isChanSend,
      List.append_assoc, List.take_left, List.drop_left, List.getLast?_concat]

/-- Witness for C4 at a concrete body: trace `[logInfo "x"]`, error `"boom"`. -/
theorem clio_C4_witness :
    (async [Event.logInfo "x"] (some "boom")).filter Event.isChanClose = [Event.chanClose]
    ∧ (async [Event.logInfo "x"] (some "boom")).getLast? = some Event.chanClose
    ∧ ((async [Event.logInfo "x"] (some "boom")).filter Event.isChanSend).length =
        (if (some "boom" : Option Err).isSome then 1 else 0)
    ∧ (async [Event.logInfo "x"] (some "boom")).take 1 = [Event.logInfo "x"]
    ∧ (async [Event.logInfo "x"] (some "boom")).drop 1 =
        [Event.chanSend "boom", Event.chanClose] := by
  have h := clio_C4_async_channel_discipline [Event.logInfo "x"] (some "boom") (by decide)
  simpa using h

/-- The accumulator form of the `nonNil` loop. -/
theorem nonNil_go {α : Type} (l : List (Option α)) (acc : List α) :
    l.foldl (fun ret v =>
      match v with
      | some x => ret ++ [x]
      | none => ret) acc = acc ++ l.filterMap id := by
  induction l generalizing acc with
  | nil => simp
  | cons v rest ih => cases v <;> simp [ih]

/-- Go's `nonNil` keeps exactly the non-nil entries, in order. -/
theorem nonNil_eq_filterMap {α : Type} (l : List (Option α)) : nonNil l = l.filterMap id := by
  simpa [nonNil] using nonNil_go l []

/-- The load list with resources enabled. -/
theorem buildLoadList_true (cfgs : List (Option Target)) :
    buildLoadList true cfgs = Target.coreConfig :: Target.app :: cfgs.filterMap id := by
  simp [buildLoadList, nonNil_eq_filterMap]

/-- The load list with resources disabled. -/
theorem buildLoadList_false (cfgs : List (Option Target)) :
    buildLoadList false cfgs = Target.coreConfig :: cfgs.filterMap id := by
  simp [buildLoadList, nonNil_eq_filterMap]

/-- C6: `loadConfigs` passes to the bridge exactly the list
`[core config, (when resources are enabled) the application, caller configs
in their given order]` with all nil entries removed and the order of the
rest preserved; on success it returns that same list. -/
theorem clio_C6_load_list (cfgs : List (Option Target)) :
    buildLoadList true cfgs = Target.coreConfig :: Target.app :: cfgs.filterMap id
    ∧ buildLoadList false cfgs = Target.coreConfig :: cfgs.filterMap id
    ∧ ∀ (env : Env) (cfg : SetupConfig) (withResources : Bool) (st : State) (l : List Target),
        (loadConfigs env cfg withResources cfgs st).2.1 = Except.ok l →
        l = buildLoadList withResources cfgs := by
  refine ⟨buildLoadList_true cfgs, buildLoadList_false cfgs, ?_⟩
  intro env cfg w st l h
  unfold loadConfigs at h
  rcases hf : fangsLoad env cfg (buildLoadList w cfgs) st with ⟨t, r, st2⟩
  cases r with
  | none =>
    simp only [hf] at h
    simpa using h.symm
  | some e =>
    simp only [hf] at h
    simp at h

/-- Witness for C6: one caller config and one nil entry. -/
theorem clio_C6_witness :
    buildLoadList true [some (Target.caller 7 none (Rendering.yamlOk "foo: bar")), none]
      = [Target.coreConfig, Target.app, Target.caller 7 none (Rendering.yamlOk "foo: bar")]
    ∧ ([Target.coreConfig, Target.app, Target.caller 7 none (Rendering.yamlOk "foo: bar")]
        = buildLoadList true [some (Target.caller 7 none (Rendering.yamlOk "foo: bar")), none]) := by
  have h := clio_C6_load_list [some (Target.caller 7 none (Rendering.yamlOk "foo: bar")), none]
  refine ⟨by simpa using h.1, ?_⟩
  exact h.2.2 envOk cfg0 true st0 _ (by rfl)

/-- C7: the version log record is the bare application name when the
version is empty, and `name version: version` otherwise. -/
theorem clio_C7_logVersion (cfg : SetupConfig) :
    (cfg.version = "" → logVersion cfg = [Event.logInfo cfg.name])
    ∧ (cfg.version ≠ "" →
        logVersion cfg = [Event.logInfo (cfg.name ++ " version: " ++ cfg.version)]) := by
  constructor <;> intro h <;> simp [logVersion, h]

/-- Witness for C7: identity `tool` with empty version and with `1.2.3`. -/
theorem clio_C7_witness :
    logVersion { cfg0 with version := "" } = [Event.logInfo "tool"]
    ∧ logVersion cfg0 = [Event.logInfo "tool version: 1.2.3"] := by
  constructor
  · simpa [cfg0] using (clio_C7_logVersion { cfg0 with version := "" }).1 rfl
  · simpa [cfg0] using (clio_C7_logVersion cfg0).2 (by decide)

/-- C10: binding wraps the execution hook in the async bridge exactly when
it is non-nil (nil stays nil), while the pre-execution hook is replaced and
usage/error auto-printing is suppressed either way. -/
theorem clio_C10_runE_binding (env : Env) (cfg : SetupConfig) (cmd : Command)
    (cfgs : List (Option Target)) (st : State) :
    ((setupCommand env cfg cmd cfgs st).1).runE = cmd.runE.map (Run env)
    ∧ (cmd.runE = none → ((setupCommand env cfg cmd cfgs st).1).runE = none)
    ∧ (∀ f, cmd.runE = some f → ((setupCommand env cfg cmd cfgs st).1).runE = some (Run env f))
    ∧ ((setupCommand env cfg cmd cfgs st).1).preRunE = some (boundPreRun env cfg cfgs cmd.preRunE)
    ∧ ((setupCommand env cfg cmd cfgs st).1).silenceUsage = true
    ∧ ((setupCommand env cfg cmd cfgs st).1).silenceErrors = true := by
  rcases hr : cmd.runE with _ | f <;> simp [setupCommand, hr]

/-- Witness for C10 at a command with a nil execution hook. -/
theorem clio_C10_witness :
    ((setupCommand envOk cfg0 cmd1 [] st0).1).runE = none
    ∧ ((setupCommand envOk cfg0 cmd1 [] st0).1).preRunE = some (boundPreRun envOk cfg0 [] none)
    ∧ ((setupCommand envOk cfg0 cmd1 [] st0).1).silenceUsage = true
    ∧ ((setupCommand envOk cfg0 cmd1 [] st0).1).silenceErrors = true := by
  have h := clio_C10_runE_binding envOk cfg0 cmd1 [] st0
  exact ⟨h.2.1 rfl, by simpa [cmd1] using h.2.2.2.1, h.2.2.2.2.1, h.2.2.2.2.2⟩

/-- C3: after binding, the pre-execution hook runs Setup first and then the
original hook with the original arguments and the post-Setup state; a Setup
failure is returned and prevents the original hook from contributing
anything (for every original hook); a nil original hook yields nil after a
successful Setup; and `setupCommand` installs exactly this bound hook. -/
theorem clio_C3_preRun_composition (env : Env) (cfg : SetupConfig)
    (cfgs : List (Option Target)) (original : Option Hook) (st : State) (args : List String) :
    (∀ t e st2, Setup env cfg cfgs st = (t, some e, st2) →
      boundPreRun env cfg cfgs original st args = (t, some e, st2))
    ∧ (∀ t st2 (f : Hook), Setup env cfg cfgs st = (t, none, st2) → original = some f →
      boundPreRun env cfg cfgs original st args =
        (t ++ (f st2 args).1, (f st2 args).2.1, (f st2 args).2.2))
    ∧ (∀ t st2, Setup env cfg cfgs st = (t, none, st2) → original = none →
      boundPreRun env cfg cfgs original st args = (t, none, st2))
    ∧ (∀ cmd : Command, ((setupCommand env cfg cmd cfgs st).1).preRunE
        = some (boundPreRun env cfg cfgs cmd.preRunE)) := by
  refine ⟨?_, ?_, ?_, ?_⟩
  · intro t e st2 h
    simp [boundPreRun, h]
  · intro t st2 f h hf
    simp [boundPreRun, h, hf]
  · intro t st2 h hf
    simp [boundPreRun, h, hf]
  · intro cmd
    rcases hr : cmd.runE with _ | f <;> simp [setupCommand, hr]

/-- Witness for C3: with a failing bridge load, the bound hook returns the
Setup failure and the original hook (which would log `"orig"`) never runs. -/
theorem clio_C3_witness :
    boundPreRun envFail cfg0 [] (some f0) st0 [] =
      ([], some "invalid application config: boom", st0) := by
  exact (clio_C3_preRun_composition envFail cfg0 [] (some f0) st0 []).1
    [] "invalid application config: boom" st0 (by decide)

/-- C5: the event-loop driver returns the loop outcome unchanged on every
path; with a non-nil development configuration selecting CPU (or memory)
profiling the trace is exactly a start/stop bracket of that mode around the
loop — the stop runs once on every exit path, error outcomes included —
and with a nil development configuration or any other profile value no
profiling event is emitted; CPU and memory are the only modes that start a
session. -/
theorem clio_C5_run_profiling (env : Env) (st : State) (errs : Trace) :
    (run env st errs).2 = (env.eventloop errs).2
    ∧ (st.config.dev = none → (run env st errs).1 = (env.eventloop errs).1)
    ∧ (∀ d, st.config.dev = some d →
        (d.profile = Profile.cpu →
          (run env st errs).1 =
            Event.profileStart ProfileMode.cpu :: (env.eventloop errs).1
              ++ [Event.profileStop ProfileMode.cpu])
        ∧ (d.profile = Profile.mem →
          (run env st errs).1 =
            Event.profileStart ProfileMode.mem :: (env.eventloop errs).1
              ++ [Event.profileStop ProfileMode.mem])
        ∧ (∀ s, d.profile = Profile.other s →
            (run env st errs).1 = (env.eventloop errs).1)) := by
  rcases hl : env.eventloop errs with ⟨lt, lr⟩
  rcases hd : st.config.dev with _ | d
  · simp [run, hl, hd]
  · rcases hp : d.profile with _ | _ | s <;> simp [run, hl, hd, hp]

/-- Witness for C5: CPU profiling around a loop that reports a failure —
the stop action still runs, exactly once, and the failure is unchanged. -/
theorem clio_C5_witness :
    (run envLoopErr stCpu []).1 =
      [Event.profileStart ProfileMode.cpu, Event.logInfo "loop",
        Event.profileStop ProfileMode.cpu]
    ∧ (run envLoopErr stCpu []).2 = some "body failed"
    ∧ ((run envLoopErr stCpu []).1.filter Event.isProfileStop).length = 1 := by
  have h := clio_C5_run_profiling envLoopErr stCpu []
  have h3 := (h.2.2 ⟨Profile.cpu⟩ rfl).1 rfl
  have h1 : (run envLoopErr stCpu []).1 =
      [Event.profileStart ProfileMode.cpu, Event.logInfo "loop",
        Event.profileStop ProfileMode.cpu] := by
    simpa [envLoopErr, envOk, quietLoop] using h3
  refine ⟨h1, ?_, ?_⟩
  · simpa [envLoopErr, envOk, quietLoop] using h.1
  · rw [h1]
    decide

/-- A nonempty contribution list joins to a nonempty string (every piece is
newline-terminated). -/
theorem joinLines_ne_empty (s : String) (l : List String) : joinLines (s :: l) ≠ "" := by
  intro h
  have hlen := congrArg String.length h
  have h1 : ("\n" : String).length = 1 := rfl
  have h2 : ("" : String).length = 0 := rfl
  simp [joinLines, String.length_append, h1, h2] at hlen

/-- The string-builder loop of `logConfiguration` accumulates exactly the
newline-terminated contributing renderings. -/
theorem logConfiguration_fold_eq (cfgs : List (Option Rendering)) :
    ∀ sb : String,
      cfgs.foldl (fun sb c =>
        match c with
        | none => sb
        | some r =>
          let str := trimSpace (renderOne r)
          if str ≠ "" ∧ str ≠ "\x7b\x7d" then sb ++ str ++ "\n" else sb) sb
      = sb ++ joinLines (contributing cfgs) := by
  induction cfgs with
  | nil =>
    intro sb
    simp [contributing, joinLines, String.append_empty]
  | cons c rest ih =>
    intro sb
    cases c with
    | none =>
      simpa [contributing, List.filterMap_cons] using ih sb
    | some r =>
      by_cases hc : (trimSpace (renderOne r) ≠ "" ∧ trimSpace (renderOne r) ≠ "\x7b\x7d")
      · have hk : keepRendering (trimSpace (renderOne r)) = true := by
          simp [keepRendering, hc]
        simp only [List.foldl_cons, if_pos hc]
        rw [ih (sb ++ trimSpace (renderOne r) ++ "\n")]
        simp [contributing, List.filterMap_cons, List.filter_cons, hk, joinLines,
          String.append_assoc]
      · have hk : keepRendering (trimSpace (renderOne r)) = false := by
          simp only [keepRendering, decide_eq_false_iff_not]
          exact hc
        simp only [List.foldl_cons, if_neg hc]
        rw [ih sb]
        simp [contributing, List.filterMap_cons, List.filter_cons, hk]

/-- C8: the consolidated configuration record contains exactly the non-nil
objects whose trimmed rendering (own string representation when provided,
otherwise the yaml serialization) is neither empty nor `"\x7b\x7d"`; when no
object contributes, the `config: (none)` placeholder record is emitted
instead of the dump. -/
theorem clio_C8_consolidated_dump (cfgs : List (Option Rendering)) :
    (∀ s, keepRendering s = true ↔ (s ≠ "" ∧ s ≠ "\x7b\x7d"))
    ∧ contributing cfgs
        = ((cfgs.filterMap id).map (fun r => trimSpace (renderOne r))).filter keepRendering
    ∧ logConfiguration cfgs =
        (if contributing cfgs = [] then [Event.logDebug "config: (none)"]
         else [Event.logDebug ("config:\n"
           ++ magenta (indentTwo (trimSpace (joinLines (contributing cfgs)))))]) := by
  refine ⟨fun s => by simp [keepRendering], rfl, ?_⟩
  unfold logConfiguration
  rw [logConfiguration_fold_eq cfgs ""]
  rw [String.empty_append]
  cases hcontrib : contributing cfgs with
  | nil => simp [joinLines]
  | cons s l =>
    have hne := joinLines_ne_empty s l
    simp [hne]

/-- Witness for C8: one `\x7b\x7d`-rendering object and one `foo: bar`
object produce only the `foo: bar` block; a `\x7b\x7d` object next to a nil
entry produces the placeholder. -/
theorem clio_C8_witness :
    logConfiguration [some (Rendering.yamlOk "\x7b\x7d"), some (Rendering.yamlOk "foo: bar\n")]
      = [Event.logDebug ("config:\n" ++ magenta (indentTwo "foo: bar"))]
    ∧ logConfiguration [some (Rendering.yamlOk "\x7b\x7d"), none]
      = [Event.logDebug "config: (none)"] := by
  constructor
  · rw [(clio_C8_consolidated_dump
      [some (Rendering.yamlOk "\x7b\x7d"), some (Rendering.yamlOk "foo: bar\n")]).2.2]
    decide
  · rw [(clio_C8_consolidated_dump [some (Rendering.yamlOk "\x7b\x7d"), none]).2.2]
    decide

/-- The byte-wise comparison loop of `String.substrEq` succeeds when both
sides are the same string at the same offset. -/
theorem substrEq_loop_refl (s : String) : ∀ (n : Nat) (off stop : String.Pos),
    stop.byteIdx - off.byteIdx ≤ n → String.substrEq.loop s s off off stop = true := by
  intro n
  induction n with
  | zero =>
    intro off stop h
    rw [String.substrEq.loop]
    split
    · omega
    · rfl
  | succ n ih =>
    intro off stop h
    rw [String.substrEq.loop]
    split
    · rename_i hlt
      simp only [beq_self_eq_true, Bool.true_and]
      apply ih
      have hc := (s.get off).utf8Size_pos
      simp [String.Pos.addChar_eq]
      omega
    · rfl

/-- Every string is a prefix of itself. -/
theorem isPrefixOf_refl (s : String) : s.isPrefixOf s = true := by
  unfold String.isPrefixOf String.substrEq
  simp
  exact substrEq_loop_refl s s.endPos.byteIdx 0 s.endPos (by omega)

/-- Go's `cp` returns the very value in a pure embedding (nil stays nil,
non-nil pointees are copied by value). -/
theorem cp_eq {T : Type} (v : Option T) : cp v = v := by
  cases v <;> rfl

/-- The post-construct loop emits one event per registered hook, in
registration order. -/
theorem runPostConstructsAux_trace (pcs : List PostConstruct) :
    ∀ (idx : Nat) (st : State),
      (runPostConstructsAux pcs idx st).1
        = (List.range pcs.length).map (fun k => Event.postConstructRun (idx + k)) := by
  induction pcs with
  | nil => intro idx st; simp [runPostConstructsAux]
  | cons pc rest ih =>
    intro idx st
    simp only [runPostConstructsAux, ih (idx + 1) (pc st), List.length_cons,
      List.range_succ_eq_map, List.map_cons, List.map_map, Nat.add_zero]
    congr 1
    apply List.map_congr_left
    intro k _
    simp only [Function.comp_apply]
    congr 1
    omega

/-- The post-construct loop applies the hooks to the state in registration
order. -/
theorem runPostConstructsAux_state (pcs : List PostConstruct) :
    ∀ (idx : Nat) (st : State),
      (runPostConstructsAux pcs idx st).2 = pcs.foldl (fun s pc => pc s) st := by
  induction pcs with
  | nil => intro idx st; simp [runPostConstructsAux]
  | cons pc rest ih =>
    intro idx st
    simp [runPostConstructsAux, ih (idx + 1) (pc st)]

/-- The post-construct loop as an explicit pair. -/
theorem runPostConstructsAux_eq (pcs : List PostConstruct) (idx : Nat) (st : State) :
    runPostConstructsAux pcs idx st
      = ((List.range pcs.length).map (fun k => Event.postConstructRun (idx + k)),
         pcs.foldl (fun s pc => pc s) st) :=
  Prod.ext (runPostConstructsAux_trace pcs idx st) (runPostConstructsAux_state pcs idx st)

/-- Command binding leaves the identity fields (`Use`, `Version`, the
version template) untouched. -/
theorem setupCommand_fields (env : Env) (cfg : SetupConfig) (cmd : Command)
    (cfgs : List (Option Target)) (st : State) :
    ((setupCommand env cfg cmd cfgs st).1).use = cmd.use
    ∧ ((setupCommand env cfg cmd cfgs st).1).version = cmd.version
    ∧ ((setupCommand env cfg cmd cfgs st).1).versionTemplate = cmd.versionTemplate := by
  rcases hr : cmd.runE with _ | f <;> simp [setupCommand, hr]

/-- C9: root binding forces the invocation name to the application name
unless it already carries that prefix (so it always carries it afterwards),
sets the version metadata and the one-line `name \x7b\x7b.Version\x7d\x7d`
template, copies the default logging and development configurations into the
state strictly before any post-construct hook runs (the two copies precede
every `postConstructRun` event), runs the hooks in registration order, and
then performs the normal command binding on the resulting state. -/
theorem clio_C9_root_binding (env : Env) (cfg : SetupConfig) (cmd : Command)
    (cfgs : List (Option Target)) (st : State) :
    cfg.name.isPrefixOf ((setupRootCommand env cfg cmd cfgs st).2.1).use = true
    ∧ (cfg.name.isPrefixOf cmd.use = false →
        ((setupRootCommand env cfg cmd cfgs st).2.1).use = cfg.name)
    ∧ (cfg.name.isPrefixOf cmd.use = true →
        ((setupRootCommand env cfg cmd cfgs st).2.1).use = cmd.use)
    ∧ ((setupRootCommand env cfg cmd cfgs st).2.1).version = cfg.version
    ∧ ((setupRootCommand env cfg cmd cfgs st).2.1).versionTemplate
        = cfg.name ++ " \x7b\x7b.Version\x7d\x7d\n"
    ∧ (setupRootCommand env cfg cmd cfgs st).1
        = [Event.setStateLog, Event.setStateDev]
          ++ (List.range cfg.postConstructs.length).map Event.postConstructRun
    ∧ (setupRootCommand env cfg cmd cfgs st).2
        = setupCommand env cfg
            { cmd with
              use := if cfg.name.isPrefixOf cmd.use then cmd.use else cfg.name
              version := cfg.version
              versionTemplate := cfg.name ++ " \x7b\x7b.Version\x7d\x7d\n" }
            cfgs
            (cfg.postConstructs.foldl (fun s pc => pc s)
              { st with config := { st.config with
                  log := cfg.defaultLoggingConfig
                  dev := cfg.defaultDevelopmentConfig } }) := by
  have hmain : (setupRootCommand env cfg cmd cfgs st).2
      = setupCommand env cfg
          { cmd with
            use := if cfg.name.isPrefixOf cmd.use then cmd.use else cfg.name
            version := cfg.version
            versionTemplate := cfg.name ++ " \x7b\x7b.Version\x7d\x7d\n" }
          cfgs
          (cfg.postConstructs.foldl (fun s pc => pc s)
            { st with config := { st.config with
                log := cfg.defaultLoggingConfig
                dev := cfg.defaultDevelopmentConfig } }) := by
    cases hp : cfg.name.isPrefixOf cmd.use <;>
      simp [setupRootCommand, hp, cp_eq, runPostConstructsAux_eq]
  have htrace : (setupRootCommand env cfg cmd cfgs st).1
      = [Event.setStateLog, Event.setStateDev]
        ++ (List.range cfg.postConstructs.length).map Event.postConstructRun := by
    cases hp : cfg.name.isPrefixOf cmd.use <;>
      simp [setupRootCommand, hp, cp_eq, runPostConstructsAux_eq]
  have hfields := setupCommand_fields env cfg
    { cmd with
      use := if cfg.name.isPrefixOf cmd.use then cmd.use else cfg.name
      version := cfg.version
      versionTemplate := cfg.name ++ " \x7b\x7b.Version\x7d\x7d\n" }
    cfgs
    (cfg.postConstructs.foldl (fun s pc => pc s)
      { st with config := { st.config with
          log := cfg.defaultLoggingConfig
          dev := cfg.defaultDevelopmentConfig } })
  refine ⟨?_, ?_, ?_, ?_, ?_, htrace, hmain⟩
  · rw [show (setupRootCommand env cfg cmd cfgs st).2.1
        = ((setupRootCommand env cfg cmd cfgs st).2).1 from rfl, hmain, hfields.1]
    cases hp : cfg.name.isPrefixOf cmd.use with
    | false => simp [hp, isPrefixOf_refl]
    | true => simp [hp]
  · intro hp
    rw [show (setupRootCommand env cfg cmd cfgs st).2.1
        = ((setupRootCommand env cfg cmd cfgs st).2).1 from rfl, hmain, hfields.1]
    simp [hp]
  · intro hp
    rw [show (setupRootCommand env cfg cmd cfgs st).2.1
        = ((setupRootCommand env cfg cmd cfgs st).2).1 from rfl, hmain, hfields.1]
    simp [hp]
  · rw [show (setupRootCommand env cfg cmd cfgs st).2.1
        = ((setupRootCommand env cfg cmd cfgs st).2).1 from rfl, hmain, hfields.2.1]
  · rw [show (setupRootCommand env cfg cmd cfgs st).2.1
        = ((setupRootCommand env cfg cmd cfgs st).2).1 from rfl, hmain, hfields.2.2]

/-- Witness for C9 at a command whose name lacks the `tool` prefix. -/
theorem clio_C9_witness :
    ((setupRootCommand envOk cfg0 cmd1 [] st0).2.1).use = "tool"
    ∧ ((setupRootCommand envOk cfg0 cmd1 [] st0).2.1).version = "1.2.3"
    ∧ ((setupRootCommand envOk cfg0 cmd1 [] st0).2.1).versionTemplate
        = "tool \x7b\x7b.Version\x7d\x7d\n"
    ∧ (setupRootCommand envOk cfg0 cmd1 [] st0).1
        = [Event.setStateLog, Event.setStateDev] := by
  have h := clio_C9_root_binding envOk cfg0 cmd1 [] st0
  refine ⟨?_, ?_, ?_, ?_⟩
  · have hnp : cfg0.name.isPrefixOf cmd1.use = false := by
      unfold String.isPrefixOf String.substrEq
      rw [String.substrEq.loop]
      decide
    simpa [cfg0] using h.2.1 hnp
  · simpa [cfg0] using h.2.2.2.1
  · simpa [cfg0] using h.2.2.2.2.1
  · simpa [cfg0] using h.2.2.2.2.2.1

/-- Running a chain whose prefix succeeds continues into the remainder at
the shifted registration index. -/
theorem runInitializersAux_append_ok (rest : List Initializer) :
    ∀ (pre : List Initializer) (idx : Nat) (st st1 : State) (t1 : Trace),
      runInitializersAux pre idx st = (t1, none, st1) →
      runInitializersAux (pre ++ rest) idx st =
        (t1 ++ (runInitializersAux rest (idx + pre.length) st1).1,
         (runInitializersAux rest (idx + pre.length) st1).2.1,
         (runInitializersAux rest (idx + pre.length) st1).2.2) := by
  intro pre
  induction pre with
  | nil =>
    intro idx st st1 t1 h
    simp only [runInitializersAux] at h
    obtain ⟨h1, h2⟩ : ([] : Trace) = t1 ∧ st = st1 := by simpa using h
    subst h1
    subst h2
    simp
  | cons i pre ih =>
    intro idx st st1 t1 h
    simp only [runInitializersAux] at h
    rcases hi : i st with ⟨r0, st'⟩
    rw [hi] at h
    cases r0 with
    | some e => simp at h
    | none =>
      rcases ha : runInitializersAux pre (idx + 1) st' with ⟨tp, rp, stp⟩
      simp only [ha] at h
      obtain ⟨h1, h2, h3⟩ :
          Event.initRun idx :: tp = t1 ∧ rp = none ∧ stp = st1 := by simpa using h
      subst h2
      subst h1
      subst h3
      simp only [List.cons_append, runInitializersAux, hi, List.append_eq]
      rw [ih (idx + 1) st' stp tp ha]
      have harith : idx + 1 + pre.length = idx + (pre.length + 1) := by omega
      simp [harith]

/-- A fully successful chain's trace lists every registration index in
order. -/
theorem runInitializersAux_ok_trace :
    ∀ (inits : List Initializer) (idx : Nat) (st st1 : State) (t : Trace),
      runInitializersAux inits idx st = (t, none, st1) →
      t = (List.range inits.length).map (fun k => Event.initRun (idx + k)) := by
  intro inits
  induction inits with
  | nil =>
    intro idx st st1 t h
    obtain ⟨h1, h2⟩ : ([] : Trace) = t ∧ st = st1 := by
      simpa [runInitializersAux] using h
    subst h1
    simp
  | cons i rest ih =>
    intro idx st st1 t h
    simp only [runInitializersAux] at h
    rcases hi : i st with ⟨r0, st'⟩
    rw [hi] at h
    cases r0 with
    | some e => simp at h
    | none =>
      rcases ha : runInitializersAux rest (idx + 1) st' with ⟨tp, rp, stp⟩
      simp only [ha] at h
      obtain ⟨h1, h2, h3⟩ :
          Event.initRun idx :: tp = t ∧ rp = none ∧ stp = st1 := by simpa using h
      subst h2
      subst h1
      have htp := ih (idx + 1) st' stp tp ha
      rw [htp]
      simp only [List.length_cons, List.range_succ_eq_map, List.map_cons, List.map_map,
        Nat.add_zero]
      congr 1
      apply List.map_congr_left
      intro k _
      simp only [Function.comp_apply]
      congr 1
      omega

/-- The bridge's hook pass at an application target whose `PostLoad` fails
in the initializer chain: the failure halts the pass there. -/
theorem runPostLoadHooks_app_fail (env : Env) (cfg : SetupConfig) (rest : List Target)
    (idx : Nat) (st st' sti : State) (ti : Trace) (e : Err)
    (hss : env.stateSetup st = (none, st'))
    (hri : runInitializers cfg st' = (ti, some e, sti)) :
    runPostLoadHooks env cfg (Target.app :: rest) idx st
      = (Event.postLoadHook idx :: ti, some e, sti) := by
  simp only [runPostLoadHooks, PostLoad, hss, hri]

/-- C1 (corrected): the chain executes initializers in registration order
and halts at the first failing one — no subsequent initializer (or later
target's hook) executes — and `runInitializers` returns that exact failure;
`Setup`, however, surfaces it wrapped with the fixed
`invalid application config` prefix rather than verbatim. -/
theorem clio_C1_initializer_chain (cfg : SetupConfig) (st : State) :
    (∀ (pre post : List Initializer) (i : Initializer) (st1 st2 : State) (t1 : Trace) (e : Err),
      cfg.initializers = pre ++ i :: post →
      runInitializersAux pre 0 st = (t1, none, st1) →
      i st1 = (some e, st2) →
      runInitializers cfg st = (t1 ++ [Event.initRun pre.length], some e, st2)
      ∧ t1 = (List.range pre.length).map Event.initRun)
    ∧ (∀ (env : Env) (cfgs : List (Option Target)) (st' sti : State) (ti : Trace) (e : Err),
      env.loadFailure = none →
      env.stateSetup st = (none, st') →
      runInitializers cfg st' = (ti, some e, sti) →
      Setup env cfg cfgs st =
        ((List.range (buildLoadList true cfgs).length).map Event.populate
          ++ Event.postLoadHook 1 :: ti,
         some ("invalid application config: " ++ e), sti)) := by
  constructor
  · intro pre post i st1 st2 t1 e hinits hpre hi
    constructor
    · unfold runInitializers
      rw [hinits]
      rw [runInitializersAux_append_ok (i :: post) pre 0 st st1 t1 hpre]
      have hstep : runInitializersAux (i :: post) (0 + pre.length) st1
          = ([Event.initRun (0 + pre.length)], some e, st2) := by
        simp [runInitializersAux, hi]
      rw [hstep]
      simp
    · have := runInitializersAux_ok_trace pre 0 st st1 t1 hpre
      rw [this]
      apply List.map_congr_left
      intro k _
      simp
  · intro env cfgs st' sti ti e hlf hss hri
    have h2 : runPostLoadHooks env cfg (buildLoadList true cfgs) 0 st
        = (Event.postLoadHook 1 :: ti, some e, sti) := by
      rw [buildLoadList_true]
      have := runPostLoadHooks_app_fail env cfg (cfgs.filterMap id) 1 st st' sti ti e hss hri
      simpa [runPostLoadHooks] using this
    have hfl : fangsLoad env cfg (buildLoadList true cfgs) st
        = ((List.range (buildLoadList true cfgs).length).map Event.populate
            ++ Event.postLoadHook 1 :: ti, some e, sti) := by
      simp [fangsLoad, hlf, h2]
    simp [Setup, loadConfigs, hfl]

/-- The claim's "returned verbatim" fails on the code: with a single
initializer failing as `init boom`, `Setup` returns the wrapped message, not
the initializer's own error. -/
theorem clio_C1_counterexample :
    (Setup envOk cfgInit [] st0).2.1 = some "invalid application config: init boom"
    ∧ (Setup envOk cfgInit [] st0).2.1 ≠ some "init boom" := by
  decide

/-- Witness for C1 at the concrete one-initializer configuration. -/
theorem clio_C1_witness :
    runInitializers cfgInit st0 = ([Event.initRun 0], some "init boom", st0)
    ∧ Setup envOk cfgInit [] st0 =
        ([Event.populate 0, Event.populate 1, Event.postLoadHook 1, Event.initRun 0],
         some "invalid application config: init boom", st0) := by
  have hpart1 := (clio_C1_initializer_chain cfgInit st0).1 [] []
    (fun st => (some "init boom", st)) st0 st0 [] "init boom" rfl rfl rfl
  have hrun : runInitializers cfgInit st0 = ([Event.initRun 0], some "init boom", st0) := by
    simpa using hpart1.1
  refine ⟨hrun, ?_⟩
  have hpart2 := (clio_C1_initializer_chain cfgInit st0).2 envOk [] st0 st0
    [Event.initRun 0] "init boom" rfl rfl hrun
  simpa using hpart2

/-- The initializer chain emits no log record. -/
theorem runInitializersAux_no_log :
    ∀ (inits : List Initializer) (idx : Nat) (st : State),
      ∀ e ∈ (runInitializersAux inits idx st).1, e.isLogRecord = false := by
  intro inits
  induction inits with
  | nil =>
    intro idx st e he
    simp [runInitializersAux] at he
  | cons i rest ih =>
    intro idx st e he
    simp only [runInitializersAux] at he
    rcases hi : i st with ⟨r0, st'⟩
    rw [hi] at he
    cases r0 with
    | some err =>
      simp at he
      subst he
      rfl
    | none =>
      simp at he
      rcases he with rfl | he
      · rfl
      · exact ih (idx + 1) st' e he

/-- The application's post-load hook emits no log record. -/
theorem PostLoad_no_log (env : Env) (cfg : SetupConfig) (st : State) :
    ∀ e ∈ (PostLoad env cfg st).1, e.isLogRecord = false := by
  intro e he
  simp only [PostLoad, runInitializers] at he
  rcases hs : env.stateSetup st with ⟨rs, sts⟩
  rw [hs] at he
  cases rs with
  | some e2 => simp at he
  | none => exact runInitializersAux_no_log cfg.initializers 0 sts e he

/-- The bridge's hook pass emits no log record. -/
theorem runPostLoadHooks_no_log :
    ∀ (ts : List Target) (env : Env) (cfg : SetupConfig) (idx : Nat) (st : State),
      ∀ e ∈ (runPostLoadHooks env cfg ts idx st).1, e.isLogRecord = false := by
  intro ts
  induction ts with
  | nil =>
    intro env cfg idx st e he
    simp [runPostLoadHooks] at he
  | cons t rest ih =>
    intro env cfg idx st e he
    cases t with
    | coreConfig =>
      simp only [runPostLoadHooks] at he
      exact ih env cfg (idx + 1) st e he
    | app =>
      simp only [runPostLoadHooks] at he
      rcases hpst : PostLoad env cfg st with ⟨tr, r, st'⟩
      rw [hpst] at he
      cases r with
      | some e2 =>
        simp at he
        rcases he with rfl | he
        · rfl
        · exact PostLoad_no_log env cfg st e (by rw [hpst]; exact he)
      | none =>
        simp at he
        rcases he with rfl | he | he
        · rfl
        · exact PostLoad_no_log env cfg st e (by rw [hpst]; exact he)
        · exact ih env cfg (idx + 1) st' e he
    | caller cid hk rend =>
      cases hk with
      | none =>
        simp only [runPostLoadHooks] at he
        exact ih env cfg (idx + 1) st e he
      | some r2 =>
        cases r2 with
        | some e2 =>
          simp only [runPostLoadHooks] at he
          simp at he
          subst he
          rfl
        | none =>
          simp only [runPostLoadHooks] at he
          simp at he
          rcases he with rfl | he
          · rfl
          · exact ih env cfg (idx + 1) st e he

/-- The whole bridge call emits no log record. -/
theorem fangsLoad_no_log (env : Env) (cfg : SetupConfig) (ts : List Target) (st : State) :
    ∀ e ∈ (fangsLoad env cfg ts st).1, e.isLogRecord = false := by
  intro e he
  simp only [fangsLoad] at he
  cases hlf : env.loadFailure with
  | some e2 =>
    rw [hlf] at he
    simp at he
  | none =>
    rw [hlf] at he
    rcases hh : runPostLoadHooks env cfg ts 0 st with ⟨ht, r, st'⟩
    simp only [hh] at he
    simp at he
    rcases he with ⟨i, _, rfl⟩ | he
    · rfl
    · exact runPostLoadHooks_no_log ts env cfg 0 st e (by rw [hh]; exact he)

/-- The version record is a single `logInfo`. -/
theorem logVersion_shape (cfg : SetupConfig) : ∃ m, logVersion cfg = [Event.logInfo m] := by
  unfold logVersion
  split
  · exact ⟨_, rfl⟩
  · exact ⟨_, rfl⟩

/-- The consolidated configuration record is a single `logDebug`. -/
theorem logConfiguration_shape (l : List (Option Rendering)) :
    ∃ m, logConfiguration l = [Event.logDebug m] := by
  unfold logConfiguration
  rw [logConfiguration_fold_eq l ""]
  rw [String.empty_append]
  cases hcontrib : contributing l with
  | nil => exact ⟨"config: (none)", by simp [joinLines]⟩
  | cons s l2 =>
    refine ⟨"config:\n" ++ magenta (indentTwo (trimSpace (joinLines (s :: l2)))), ?_⟩
    simp [joinLines_ne_empty s l2]

/-- C2: on a successful Setup invocation the trace is the bridge call's
trace (which holds every post-load hook event and no log record) followed by
exactly the version record and the consolidated configuration record, so
both records appear only after the bridge call — and every post-load hook —
has completed; on a load failure the returned error carries the fixed
`invalid application config` prefix and neither record is emitted. -/
theorem clio_C2_logs_after_load (env : Env) (cfg : SetupConfig)
    (cfgs : List (Option Target)) (st : State) :
    (∀ t st2, Setup env cfg cfgs st = (t, none, st2) →
      t = (fangsLoad env cfg (buildLoadList true cfgs) st).1
            ++ (logVersion cfg
                ++ logConfiguration
                    ((buildLoadList true cfgs).map (fun c => some (renderOf env c))))
      ∧ (∀ e ∈ (fangsLoad env cfg (buildLoadList true cfgs) st).1, e.isLogRecord = false)
      ∧ t.filter Event.isLogRecord
          = logVersion cfg
            ++ logConfiguration
                ((buildLoadList true cfgs).map (fun c => some (renderOf env c))))
    ∧ (∀ t e st2, Setup env cfg cfgs st = (t, some e, st2) →
        (∃ e0, e = "invalid application config: " ++ e0)
        ∧ t.filter Event.isLogRecord = []) := by
  rcases hf : fangsLoad env cfg (buildLoadList true cfgs) st with ⟨ft, fr, fst⟩
  have hnl : ∀ e ∈ ft, Event.isLogRecord e = false := by
    intro e he
    exact fangsLoad_no_log env cfg (buildLoadList true cfgs) st e (by rw [hf]; exact he)
  have hftfilter : ft.filter Event.isLogRecord = [] := by
    rw [List.filter_eq_nil_iff]
    intro a ha
    simp [hnl a ha]
  cases fr with
  | some e =>
    have hs : Setup env cfg cfgs st = (ft, some ("invalid application config: " ++ e), fst) := by
      simp [Setup, loadConfigs, hf]
    constructor
    · intro t st2 ht
      rw [hs] at ht
      simp at ht
    · intro t e2 st2 ht
      rw [hs] at ht
      obtain ⟨h1, h2, h3⟩ :
          ft = t ∧ "invalid application config: " ++ e = e2 ∧ fst = st2 := by simpa using ht
      subst h1
      exact ⟨⟨e, h2.symm⟩, hftfilter⟩
  | none =>
    have hs : Setup env cfg cfgs st
        = (ft ++ (logVersion cfg
            ++ logConfiguration
                ((buildLoadList true cfgs).map (fun c => some (renderOf env c)))),
           none, fst) := by
      simp [Setup, loadConfigs, hf, List.append_assoc]
    constructor
    · intro t st2 ht
      rw [hs] at ht
      obtain ⟨h1, h2⟩ :
          ft ++ (logVersion cfg
            ++ logConfiguration
                ((buildLoadList true cfgs).map (fun c => some (renderOf env c)))) = t
          ∧ fst = st2 := by simpa using ht
      subst h1
      refine ⟨rfl, hnl, ?_⟩
      obtain ⟨mv, hmv⟩ := logVersion_shape cfg
      obtain ⟨mc, hmc⟩ :=
        logConfiguration_shape ((buildLoadList true cfgs).map (fun c => some (renderOf env c)))
      rw [hmv, hmc]
      simp [List.filter_append, hftfilter, Event.isLogRecord]
    · intro t e st2 ht
      rw [hs] at ht
      simp at ht

/-- Witness for C2: a failing bridge load yields the wrapped error and an
empty log-record filter. -/
theorem clio_C2_witness :
    (∃ e0, "invalid application config: boom" = "invalid application config: " ++ e0)
    ∧ (Setup envFail cfg0 [] st0).1.filter Event.isLogRecord = [] := by
  have ht : Setup envFail cfg0 [] st0 = ([], some "invalid application config: boom", st0) := by
    decide
  have h := (clio_C2_logs_after_load envFail cfg0 [] st0).2 []
    "invalid application config: boom" st0 ht
  refine ⟨h.1, ?_⟩
  rw [ht]
  exact h.2

end Clio
